import Mathlib

/-!
Shallow embedding of the microlensing model of `src/Microlensing.py`,
and verification of the specification's claims about it.

The Python source computes with real-valued formulas (numpy floats); we
embed them over `ℝ`.  Physical constants carry the numeric values used by
the source (astropy's `G`, `c`, `M_sun` and the kiloparsec), and unit
conversions are spelled out exactly as the source performs them.
-/

namespace Microlensing

/-- Gravitational constant, m³ kg⁻¹ s⁻², as `astropy.constants.G`. -/
def G : ℝ := 6.6743e-11

/-- Speed of light, m/s, as `astropy.constants.c`. -/
def c : ℝ := 299792458

/-- Solar mass, kg, as `astropy.constants.M_sun`. -/
def M_sun : ℝ := 1.98892e30

/-- Metres per kiloparsec (`u.kpc` → m). -/
def kpc_in_m : ℝ := 3.0856775814913673e19

/-- Kilometres per kiloparsec (`u.kpc.to('km')`). -/
def kpc_in_km : ℝ := 3.0856775814913673e16

/-- Seconds per day (`u.s → u.day` conversion factor). -/
def sec_per_day : ℝ := 86400

/-- `np.rad2deg(1.0) * 3600.0`: arcseconds per radian. -/
noncomputable def aconv : ℝ := 180 / Real.pi * 3600

/-- `EinsteinRadius(l_mass, ds, dl)` of the source:
`theta_E = sqrt(4 (G m / c²).to(kpc) (ds - dl)/dl/ds) * aconv`, arcsec. -/
noncomputable def EinsteinRadius (l_mass ds dl : ℝ) : ℝ :=
  Real.sqrt (4 * (G * (l_mass * M_sun) / c / c / kpc_in_m) * (ds - dl) / dl / ds) * aconv

/-- `EinsteinCrossTime(theta_E, dl, s_vel)` of the source:
`((theta_E.to(radian) * dl kpc).to(km) / s_vel / km * s).to(day)`. -/
noncomputable def EinsteinCrossTime (theta_E dl s_vel : ℝ) : ℝ :=
  theta_E / aconv * dl * kpc_in_km / s_vel / sec_per_day

/-- `Y(t, t0, tE, u0)` of the source, per time sample:
`y1 = (t - t0)/tE`, `y2 = u0`. -/
noncomputable def Y (t t0 tE u0 : ℝ) : ℝ × ℝ :=
  ((t - t0) / tE, u0)

/-- `X(y1, y2, plus)` of the source:
`Q = sqrt(y1² + y2² + 4)/sqrt(y1² + y2²)`, then `0.5 (1 ± Q) (y1, y2)`. -/
noncomputable def X (y1 y2 : ℝ) (plus : Bool) : ℝ × ℝ :=
  let Q := Real.sqrt (y1 ^ 2 + y2 ^ 2 + 4) / Real.sqrt (y1 ^ 2 + y2 ^ 2)
  if plus then (0.5 * (1 + Q) * y1, 0.5 * (1 + Q) * y2)
  else (0.5 * (1 - Q) * y1, 0.5 * (1 - Q) * y2)

/-- `Magnification(y1, y2, s_flux)` of the source:
`y = sqrt(y1² + y2²)`, result `s_flux (y² + 2) / y / sqrt(y² + 4)`. -/
noncomputable def Magnification (y1 y2 s_flux : ℝ) : ℝ :=
  let y := Real.sqrt (y1 ^ 2 + y2 ^ 2)
  s_flux * (y ^ 2 + 2) / y / Real.sqrt (y ^ 2 + 4)

/-- The angle grid `np.linspace(0.0, 2π, 360)` of `X_ext_source`:
360 points from 0 to 2π inclusive, step `2π/359`. -/
noncomputable def phi : List ℝ :=
  (List.range 360).map (fun k : ℕ => (k : ℝ) * (2 * Real.pi) / 359)

/-- `X_ext_source(y1, y2, r, plus)` of the source: for each grid angle,
offset the centre by `(r cos φ, r sin φ)` and apply the point-image
formula to the offset position. -/
noncomputable def X_ext_source (y1 y2 r : ℝ) (plus : Bool) : List (ℝ × ℝ) :=
  phi.map (fun p =>
    let yy1 := y1 + r * Real.cos p
    let yy2 := y2 + r * Real.sin p
    let Q := Real.sqrt (yy1 ^ 2 + yy2 ^ 2 + 4) / Real.sqrt (yy1 ^ 2 + yy2 ^ 2)
    if plus then (0.5 * (1 + Q) * yy1, 0.5 * (1 + Q) * yy2)
    else (0.5 * (1 - Q) * yy1, 0.5 * (1 - Q) * yy2))

/-- The Euclidean norm of a scaled pair: `sqrt((c y1)² + (c y2)²) = |c| sqrt(y1² + y2²)`. -/
lemma sqrt_scaled_sum_sq (cv y1 y2 : ℝ) :
    Real.sqrt ((cv * y1) ^ 2 + (cv * y2) ^ 2) = |cv| * Real.sqrt (y1 ^ 2 + y2 ^ 2) := by
  rw [show (cv * y1) ^ 2 + (cv * y2) ^ 2 = cv ^ 2 * (y1 ^ 2 + y2 ^ 2) by ring,
    Real.sqrt_mul (sq_nonneg cv), Real.sqrt_sq_eq_abs]

/-- The plus branch of `X`, spelled out. -/
lemma X_plus_eq (y1 y2 : ℝ) :
    X y1 y2 true =
      (0.5 * (1 + Real.sqrt (y1 ^ 2 + y2 ^ 2 + 4) / Real.sqrt (y1 ^ 2 + y2 ^ 2)) * y1,
       0.5 * (1 + Real.sqrt (y1 ^ 2 + y2 ^ 2 + 4) / Real.sqrt (y1 ^ 2 + y2 ^ 2)) * y2) := rfl

/-- The minus branch of `X`, spelled out. -/
lemma X_minus_eq (y1 y2 : ℝ) :
    X y1 y2 false =
      (0.5 * (1 - Real.sqrt (y1 ^ 2 + y2 ^ 2 + 4) / Real.sqrt (y1 ^ 2 + y2 ^ 2)) * y1,
       0.5 * (1 - Real.sqrt (y1 ^ 2 + y2 ^ 2 + 4) / Real.sqrt (y1 ^ 2 + y2 ^ 2)) * y2) := rfl

/-- C1: for any source position with `y = sqrt(y1² + y2²) > 0` and any
baseline flux `f`, `Magnification` returns exactly `f (y² + 2)/(y sqrt(y² + 4))`;
and at `t = t0` the trajectory gives `y = u0`, so the returned value is the
formula at `y = u0` (for `u0 > 0`). -/
theorem magnification_formula (y1 y2 f t0 tE u0 : ℝ)
    (hy : 0 < Real.sqrt (y1 ^ 2 + y2 ^ 2)) (hu : 0 < u0) :
    Magnification y1 y2 f =
      f * ((Real.sqrt (y1 ^ 2 + y2 ^ 2)) ^ 2 + 2) /
        (Real.sqrt (y1 ^ 2 + y2 ^ 2) *
          Real.sqrt ((Real.sqrt (y1 ^ 2 + y2 ^ 2)) ^ 2 + 4)) ∧
    Magnification (Y t0 t0 tE u0).1 (Y t0 t0 tE u0).2 f =
      f * (u0 ^ 2 + 2) / (u0 * Real.sqrt (u0 ^ 2 + 4)) := by
  constructor
  · simp only [Magnification]
    rw [div_div]
  · simp only [Magnification, Y, sub_self, zero_div]
    have h0 : Real.sqrt (0 ^ 2 + u0 ^ 2) = u0 := by
      rw [show (0 : ℝ) ^ 2 + u0 ^ 2 = u0 ^ 2 by ring, Real.sqrt_sq hu.le]
    rw [h0, div_div]

/-- Witness for C1 at `(y1, y2) = (3, 4)`, `f = 2`, `u0 = 1/10`. -/
theorem magnification_formula_witness :
    Magnification 3 4 2 =
      2 * ((Real.sqrt (3 ^ 2 + 4 ^ 2)) ^ 2 + 2) /
        (Real.sqrt (3 ^ 2 + 4 ^ 2) *
          Real.sqrt ((Real.sqrt (3 ^ 2 + 4 ^ 2)) ^ 2 + 4)) ∧
    Magnification (Y 0 0 1 (1/10)).1 (Y 0 0 1 (1/10)).2 2 =
      2 * ((1/10) ^ 2 + 2) / ((1/10) * Real.sqrt ((1/10) ^ 2 + 4)) :=
  magnification_formula 3 4 2 0 1 (1/10)
    (Real.sqrt_pos.mpr (by norm_num)) (by norm_num)

/-- C3: for every `t`, `t0`, nonzero `tE` and `u0`, `Y` returns
`((t - t0)/tE, u0)`, and at `t = t0` it returns `(0, u0)` exactly. -/
theorem source_trajectory (t t0 tE u0 : ℝ) (htE : tE ≠ 0) :
    Y t t0 tE u0 = ((t - t0) / tE, u0) ∧ Y t0 t0 tE u0 = (0, u0) := by
  refine ⟨rfl, ?_⟩
  simp [Y]

/-- Witness for C3 at `t = 1`, `t0 = 0`, `tE = 2`, `u0 = 3`. -/
theorem source_trajectory_witness :
    Y 1 0 2 3 = ((1 - 0) / 2, 3) ∧ Y 0 0 2 3 = (0, 3) :=
  source_trajectory 1 0 2 3 (by norm_num)

/-- C2: for any source position with `r = sqrt(y1² + y2²) > 0` and
`Q = sqrt(r² + 4)/r`, the point-image function returns
`(0.5 (1 + Q) y1, 0.5 (1 + Q) y2)` for the plus image and
`(0.5 (1 - Q) y1, 0.5 (1 - Q) y2)` for the minus image. -/
theorem point_images (y1 y2 : ℝ) (hr : 0 < Real.sqrt (y1 ^ 2 + y2 ^ 2)) :
    X y1 y2 true =
      (0.5 * (1 + Real.sqrt ((Real.sqrt (y1 ^ 2 + y2 ^ 2)) ^ 2 + 4) /
          Real.sqrt (y1 ^ 2 + y2 ^ 2)) * y1,
       0.5 * (1 + Real.sqrt ((Real.sqrt (y1 ^ 2 + y2 ^ 2)) ^ 2 + 4) /
          Real.sqrt (y1 ^ 2 + y2 ^ 2)) * y2) ∧
    X y1 y2 false =
      (0.5 * (1 - Real.sqrt ((Real.sqrt (y1 ^ 2 + y2 ^ 2)) ^ 2 + 4) /
          Real.sqrt (y1 ^ 2 + y2 ^ 2)) * y1,
       0.5 * (1 - Real.sqrt ((Real.sqrt (y1 ^ 2 + y2 ^ 2)) ^ 2 + 4) /
          Real.sqrt (y1 ^ 2 + y2 ^ 2)) * y2) := by
  have hsq : (Real.sqrt (y1 ^ 2 + y2 ^ 2)) ^ 2 = y1 ^ 2 + y2 ^ 2 :=
    Real.sq_sqrt (by positivity)
  rw [hsq]
  exact ⟨rfl, rfl⟩

/-- Witness for C2 at `(y1, y2) = (3, 4)`. -/
theorem point_images_witness :
    X 3 4 true =
      (0.5 * (1 + Real.sqrt ((Real.sqrt (3 ^ 2 + 4 ^ 2)) ^ 2 + 4) /
          Real.sqrt (3 ^ 2 + 4 ^ 2)) * 3,
       0.5 * (1 + Real.sqrt ((Real.sqrt (3 ^ 2 + 4 ^ 2)) ^ 2 + 4) /
          Real.sqrt (3 ^ 2 + 4 ^ 2)) * 4) ∧
    X 3 4 false =
      (0.5 * (1 - Real.sqrt ((Real.sqrt (3 ^ 2 + 4 ^ 2)) ^ 2 + 4) /
          Real.sqrt (3 ^ 2 + 4 ^ 2)) * 3,
       0.5 * (1 - Real.sqrt ((Real.sqrt (3 ^ 2 + 4 ^ 2)) ^ 2 + 4) /
          Real.sqrt (3 ^ 2 + 4 ^ 2)) * 4) :=
  point_images 3 4 (Real.sqrt_pos.mpr (by norm_num))

/-- C4 (code behaviour at the failing input): with `lensDistance =
sourceDistance` the radicand is zero and `EinsteinRadius` silently returns
the value `0` — no domain or configuration error is signalled anywhere in
the function, so the run proceeds to sampling with a zero crossing time. -/
theorem einstein_radius_equal_distances (l_mass d : ℝ) :
    EinsteinRadius l_mass d d = 0 := by
  simp [EinsteinRadius]

/-- C5 (code behaviour at the failing input): at the lens centre
`(y1, y2) = (0, 0)` the separation is `y = 0` and `Magnification` divides
by it with no guard; under the embedding's division-by-zero convention the
unguarded expression collapses to `0` — no domain error and no defined
`+∞` result. -/
theorem magnification_at_origin (s_flux : ℝ) :
    Magnification 0 0 s_flux = 0 := by
  simp [Magnification]

/-- C7: for valid parameters (`0 < dl < ds`, `mass > 0`, `velocity > 0`),
`EinsteinRadius` and `EinsteinCrossTime` are strictly positive, and
doubling the lens mass multiplies `EinsteinRadius` by exactly `√2`. -/
theorem einstein_scale_positive (l_mass ds dl s_vel : ℝ)
    (hdl : 0 < dl) (hds : dl < ds) (hm : 0 < l_mass) (hv : 0 < s_vel) :
    0 < EinsteinRadius l_mass ds dl ∧
    0 < EinsteinCrossTime (EinsteinRadius l_mass ds dl) dl s_vel ∧
    EinsteinRadius (2 * l_mass) ds dl =
      Real.sqrt 2 * EinsteinRadius l_mass ds dl := by
  have hds0 : 0 < ds := hdl.trans hds
  have hpi : 0 < Real.pi := Real.pi_pos
  have haconv : 0 < aconv := by
    unfold aconv
    positivity
  have hrad : 0 < 4 * (G * (l_mass * M_sun) / c / c / kpc_in_m) * (ds - dl) / dl / ds := by
    have hGp : 0 < G := by norm_num [G]
    have hcp : 0 < c := by norm_num [c]
    have hMp : 0 < M_sun := by norm_num [M_sun]
    have hkp : 0 < kpc_in_m := by norm_num [kpc_in_m]
    have hsub : 0 < ds - dl := sub_pos.mpr hds
    positivity
  have hθ : 0 < EinsteinRadius l_mass ds dl := by
    unfold EinsteinRadius
    exact mul_pos (Real.sqrt_pos.mpr hrad) haconv
  refine ⟨hθ, ?_, ?_⟩
  · unfold EinsteinCrossTime
    have hkm : 0 < kpc_in_km := by norm_num [kpc_in_km]
    have hday : 0 < sec_per_day := by norm_num [sec_per_day]
    positivity
  · unfold EinsteinRadius
    rw [show 4 * (G * (2 * l_mass * M_sun) / c / c / kpc_in_m) * (ds - dl) / dl / ds =
          2 * (4 * (G * (l_mass * M_sun) / c / c / kpc_in_m) * (ds - dl) / dl / ds) by
        ring]
    rw [Real.sqrt_mul (by norm_num : (0:ℝ) ≤ 2)]
    ring

/-- Witness for C7 at `mass = 1/2 M_sun`, `ds = 8`, `dl = 4`, `v = 200`. -/
theorem einstein_scale_positive_witness :
    0 < EinsteinRadius (1/2) 8 4 ∧
    0 < EinsteinCrossTime (EinsteinRadius (1/2) 8 4) 4 200 ∧
    EinsteinRadius (2 * (1/2)) 8 4 = Real.sqrt 2 * EinsteinRadius (1/2) 8 4 :=
  einstein_scale_positive (1/2) 8 4 200
    (by norm_num) (by norm_num) (by norm_num) (by norm_num)

/-- C6 (counterexample): at `(y1, y2) = (1/2, 0)` the separation is
`r = 1/2` but the minus image has norm `(√17 - 1)/4 > 1/2`, so the claimed
inequality `r > |x_minus|` is false. -/
theorem image_geometry_counterexample :
    Real.sqrt ((1/2 : ℝ) ^ 2 + 0 ^ 2) <
      Real.sqrt ((X (1/2) 0 false).1 ^ 2 + (X (1/2) 0 false).2 ^ 2) := by
  have hhalf : Real.sqrt ((1/2 : ℝ) ^ 2 + 0 ^ 2) = 1/2 := by
    rw [show (1/2 : ℝ) ^ 2 + 0 ^ 2 = (1/2) ^ 2 by ring, Real.sqrt_sq (by norm_num)]
  have h17 : (4 : ℝ) < Real.sqrt 17 := by
    rw [show (4 : ℝ) = Real.sqrt 16 by
      rw [show (16 : ℝ) = 4 ^ 2 by norm_num, Real.sqrt_sq (by norm_num)]]
    exact Real.sqrt_lt_sqrt (by norm_num) (by norm_num)
  have hQ : Real.sqrt ((1/2 : ℝ) ^ 2 + 0 ^ 2 + 4) / Real.sqrt ((1/2 : ℝ) ^ 2 + 0 ^ 2) =
      Real.sqrt 17 := by
    rw [show (1/2 : ℝ) ^ 2 + 0 ^ 2 + 4 = 17 * (1/2) ^ 2 by ring,
      Real.sqrt_mul (by norm_num), Real.sqrt_sq (by norm_num),
      show (1/2 : ℝ) ^ 2 + 0 ^ 2 = (1/2) ^ 2 by ring, Real.sqrt_sq (by norm_num)]
    field_simp
  rw [X_minus_eq, hQ, hhalf]
  have hc : (0.5 * (1 - Real.sqrt 17) : ℝ) < 0 := by nlinarith
  rw [sqrt_scaled_sum_sq, abs_of_neg hc, hhalf]
  nlinarith

/-- C6 (amended): for any source position with `r = sqrt(y1² + y2²) > 0`,
the plus image has norm `> r` and `> 1`, the minus image has norm `< 1`
(not `< r`, which fails for `r ≤ 1/√2`); both images lie on the line
through the origin and the source, the plus image along the source's
direction (positive scalar) and the minus image along the opposite
direction (negative scalar). -/
theorem image_geometry (y1 y2 : ℝ) (hr : 0 < Real.sqrt (y1 ^ 2 + y2 ^ 2)) :
    Real.sqrt (y1 ^ 2 + y2 ^ 2) <
      Real.sqrt ((X y1 y2 true).1 ^ 2 + (X y1 y2 true).2 ^ 2) ∧
    1 < Real.sqrt ((X y1 y2 true).1 ^ 2 + (X y1 y2 true).2 ^ 2) ∧
    Real.sqrt ((X y1 y2 false).1 ^ 2 + (X y1 y2 false).2 ^ 2) < 1 ∧
    (∃ cp : ℝ, 0 < cp ∧ X y1 y2 true = (cp * y1, cp * y2)) ∧
    (∃ cm : ℝ, cm < 0 ∧ X y1 y2 false = (cm * y1, cm * y2)) := by
  have hsum : 0 < y1 ^ 2 + y2 ^ 2 := Real.sqrt_pos.mp hr
  have hr2 : (Real.sqrt (y1 ^ 2 + y2 ^ 2)) ^ 2 = y1 ^ 2 + y2 ^ 2 :=
    Real.sq_sqrt hsum.le
  have hs0 : 0 < Real.sqrt (y1 ^ 2 + y2 ^ 2 + 4) :=
    Real.sqrt_pos.mpr (by positivity)
  have hrs : Real.sqrt (y1 ^ 2 + y2 ^ 2) < Real.sqrt (y1 ^ 2 + y2 ^ 2 + 4) :=
    Real.sqrt_lt_sqrt (by positivity) (by linarith)
  have hs_gt2 : 2 < Real.sqrt (y1 ^ 2 + y2 ^ 2 + 4) := by
    rw [show (2 : ℝ) = Real.sqrt 4 by
      rw [show (4 : ℝ) = 2 ^ 2 by norm_num, Real.sqrt_sq (by norm_num)]]
    exact Real.sqrt_lt_sqrt (by norm_num) (by linarith)
  have hs_lt : Real.sqrt (y1 ^ 2 + y2 ^ 2 + 4) < Real.sqrt (y1 ^ 2 + y2 ^ 2) + 2 := by
    rw [Real.sqrt_lt' (by positivity)]
    nlinarith [hr, hr2]
  set r := Real.sqrt (y1 ^ 2 + y2 ^ 2)
  set s := Real.sqrt (y1 ^ 2 + y2 ^ 2 + 4)
  have hQ1 : 1 < s / r := (one_lt_div hr).mpr hrs
  have hcp : 0 < 0.5 * (1 + s / r) := by linarith
  have hcm : 0.5 * (1 - s / r) < 0 := by linarith
  have hnp : Real.sqrt ((X y1 y2 true).1 ^ 2 + (X y1 y2 true).2 ^ 2) =
      0.5 * (r + s) := by
    rw [X_plus_eq, sqrt_scaled_sum_sq, abs_of_pos hcp]
    field_simp
  have hnm : Real.sqrt ((X y1 y2 false).1 ^ 2 + (X y1 y2 false).2 ^ 2) =
      0.5 * (s - r) := by
    rw [X_minus_eq, sqrt_scaled_sum_sq, abs_of_neg hcm]
    field_simp
    ring
  refine ⟨?_, ?_, ?_, ⟨0.5 * (1 + s / r), hcp, X_plus_eq y1 y2⟩,
    ⟨0.5 * (1 - s / r), hcm, X_minus_eq y1 y2⟩⟩
  · rw [hnp]; linarith
  · rw [hnp]; linarith
  · rw [hnm]; linarith

/-- Witness for the amended C6 at `(y1, y2) = (3, 4)`. -/
theorem image_geometry_witness :
    Real.sqrt ((3 : ℝ) ^ 2 + 4 ^ 2) <
      Real.sqrt ((X 3 4 true).1 ^ 2 + (X 3 4 true).2 ^ 2) ∧
    1 < Real.sqrt ((X 3 4 true).1 ^ 2 + (X 3 4 true).2 ^ 2) ∧
    Real.sqrt ((X 3 4 false).1 ^ 2 + (X 3 4 false).2 ^ 2) < 1 ∧
    (∃ cp : ℝ, 0 < cp ∧ X 3 4 true = (cp * 3, cp * 4)) ∧
    (∃ cm : ℝ, cm < 0 ∧ X 3 4 false = (cm * 3, cm * 4)) :=
  image_geometry 3 4 (Real.sqrt_pos.mpr (by norm_num))

/-- The magnification formula, as a function of the separation alone, is
strictly decreasing on `(0, ∞)`. -/
lemma magn_sep_strict_anti (f a b : ℝ) (hf : 0 < f) (ha : 0 < a) (hab : a < b) :
    f * (b ^ 2 + 2) / b / Real.sqrt (b ^ 2 + 4) <
      f * (a ^ 2 + 2) / a / Real.sqrt (a ^ 2 + 4) := by
  have hb : 0 < b := ha.trans hab
  have hsa : 0 < Real.sqrt (a ^ 2 + 4) := Real.sqrt_pos.mpr (by positivity)
  have hsb : 0 < Real.sqrt (b ^ 2 + 4) := Real.sqrt_pos.mpr (by positivity)
  have ha2 : (Real.sqrt (a ^ 2 + 4)) ^ 2 = a ^ 2 + 4 := Real.sq_sqrt (by positivity)
  have hb2 : (Real.sqrt (b ^ 2 + 4)) ^ 2 = b ^ 2 + 4 := Real.sq_sqrt (by positivity)
  rw [div_div, div_div, div_lt_div_iff₀ (by positivity) (by positivity)]
  have key : (b ^ 2 + 2) * (a * Real.sqrt (a ^ 2 + 4)) <
      (a ^ 2 + 2) * (b * Real.sqrt (b ^ 2 + 4)) := by
    have hR : 0 < (a ^ 2 + 2) * (b * Real.sqrt (b ^ 2 + 4)) := by positivity
    have hsq : ((b ^ 2 + 2) * (a * Real.sqrt (a ^ 2 + 4))) ^ 2 <
        ((a ^ 2 + 2) * (b * Real.sqrt (b ^ 2 + 4))) ^ 2 := by
      have e1 : ((b ^ 2 + 2) * (a * Real.sqrt (a ^ 2 + 4))) ^ 2 =
          (b ^ 2 + 2) ^ 2 * a ^ 2 * (a ^ 2 + 4) := by
        rw [mul_pow, mul_pow, ha2]; ring
      have e2 : ((a ^ 2 + 2) * (b * Real.sqrt (b ^ 2 + 4))) ^ 2 =
          (a ^ 2 + 2) ^ 2 * b ^ 2 * (b ^ 2 + 4) := by
        rw [mul_pow, mul_pow, hb2]; ring
      rw [e1, e2]
      have hd : (a ^ 2 + 2) ^ 2 * b ^ 2 * (b ^ 2 + 4) -
          (b ^ 2 + 2) ^ 2 * a ^ 2 * (a ^ 2 + 4) =
          4 * (b ^ 2 - a ^ 2) * (a ^ 2 + b ^ 2 + 4) := by ring
      have hba : a ^ 2 < b ^ 2 := by nlinarith
      have h1 : 0 < b ^ 2 - a ^ 2 := sub_pos.mpr hba
      nlinarith [hd, h1]
    exact lt_of_pow_lt_pow_left₀ 2 hR.le hsq
  calc f * (b ^ 2 + 2) * (a * Real.sqrt (a ^ 2 + 4))
      = f * ((b ^ 2 + 2) * (a * Real.sqrt (a ^ 2 + 4))) := by ring
    _ < f * ((a ^ 2 + 2) * (b * Real.sqrt (b ^ 2 + 4))) :=
        mul_lt_mul_of_pos_left key hf
    _ = f * (a ^ 2 + 2) * (b * Real.sqrt (b ^ 2 + 4)) := by ring

/-- C8: for fixed positive baseline flux, `Magnification` is strictly
decreasing in the separation `y = sqrt(y1² + y2²)` on `(0, ∞)`: a position
with strictly larger separation has strictly smaller magnification. -/
theorem magnification_strict_anti (y1 y2 z1 z2 f : ℝ) (hf : 0 < f)
    (h0 : 0 < Real.sqrt (y1 ^ 2 + y2 ^ 2))
    (h : Real.sqrt (y1 ^ 2 + y2 ^ 2) < Real.sqrt (z1 ^ 2 + z2 ^ 2)) :
    Magnification z1 z2 f < Magnification y1 y2 f :=
  magn_sep_strict_anti f (Real.sqrt (y1 ^ 2 + y2 ^ 2))
    (Real.sqrt (z1 ^ 2 + z2 ^ 2)) hf h0 h

/-- Witness for C8 at separations `1 < 2` with flux `1`. -/
theorem magnification_strict_anti_witness :
    (0 : ℝ) < 1 ∧ 0 < Real.sqrt ((1 : ℝ) ^ 2 + 0 ^ 2) ∧
    Real.sqrt ((1 : ℝ) ^ 2 + 0 ^ 2) < Real.sqrt ((2 : ℝ) ^ 2 + 0 ^ 2) ∧
    Magnification 2 0 1 < Magnification 1 0 1 :=
  ⟨by norm_num, Real.sqrt_pos.mpr (by norm_num),
   Real.sqrt_lt_sqrt (by norm_num) (by norm_num),
   magnification_strict_anti 1 0 2 0 1 (by norm_num)
     (Real.sqrt_pos.mpr (by norm_num))
     (Real.sqrt_lt_sqrt (by norm_num) (by norm_num))⟩

/-- The element at index `k` of `X_ext_source` is the point-image function
applied to the centre offset by the `k`-th grid angle. -/
lemma X_ext_source_getD (y1 y2 r : ℝ) (plus : Bool) (k : ℕ) (hk : k < 360) :
    (X_ext_source y1 y2 r plus).getD k (0, 0) =
      X (y1 + r * Real.cos ((k : ℝ) * (2 * Real.pi) / 359))
        (y2 + r * Real.sin ((k : ℝ) * (2 * Real.pi) / 359)) plus := by
  unfold X_ext_source phi
  rw [List.map_map, List.getD_eq_getElem?_getD, List.getElem?_map,
    List.getElem?_range hk]
  cases plus <;> rfl

/-- The element at index `k` of the angle grid is `k · 2π/359`. -/
lemma phi_getD (k : ℕ) (hk : k < 360) :
    phi.getD k 0 = (k : ℝ) * (2 * Real.pi) / 359 := by
  unfold phi
  rw [List.getD_eq_getElem?_getD, List.getElem?_map, List.getElem?_range hk]
  rfl

/-- C9 (counterexample): the last of the 360 sampled angles is exactly
`2π`, which does not lie in the half-open interval `[0, 2π)`. -/
theorem boundary_angles_counterexample :
    phi.getD 359 0 = 2 * Real.pi ∧ ¬ (phi.getD 359 0 < 2 * Real.pi) := by
  have h : phi.getD 359 0 = 2 * Real.pi := by
    rw [phi_getD 359 (by norm_num)]
    norm_num
  exact ⟨h, by rw [h]; exact lt_irrefl _⟩

/-- C9 (amended): the boundary-image function samples exactly 360 equally
spaced angles `φ_k = k · 2π/359` spanning the closed interval `[0, 2π]`
(both endpoints included), offsets the centre by `(r cos φ, r sin φ)`, and
returns for each angle exactly the point-image function applied to the
offset position, with the same plus/minus selection. -/
theorem boundary_images (y1 y2 r : ℝ) (plus : Bool) :
    (X_ext_source y1 y2 r plus).length = 360 ∧
    (∀ k : Fin 360, phi.getD k 0 = ((k : ℕ) : ℝ) * (2 * Real.pi) / 359) ∧
    phi.getD 0 0 = 0 ∧ phi.getD 359 0 = 2 * Real.pi ∧
    (∀ k : Fin 360, (X_ext_source y1 y2 r plus).getD k (0, 0) =
      X (y1 + r * Real.cos (((k : ℕ) : ℝ) * (2 * Real.pi) / 359))
        (y2 + r * Real.sin (((k : ℕ) : ℝ) * (2 * Real.pi) / 359)) plus) := by
  refine ⟨by simp only [X_ext_source, List.length_map, phi, List.length_range], fun k => phi_getD k k.isLt, ?_, ?_,
    fun k => X_ext_source_getD y1 y2 r plus k k.isLt⟩
  · rw [phi_getD 0 (by norm_num)]
    norm_num
  · rw [phi_getD 359 (by norm_num)]
    norm_num

/-- C10: for any centre, radius and image choice, the boundary-image list
is a closed contour with a duplicated endpoint: it has exactly 360
elements and its first element equals its last, because the angle grid
includes both `0` and `2π` and `(cos, sin)` agree there. -/
theorem boundary_contour_closed (y1 y2 r : ℝ) (plus : Bool) :
    (X_ext_source y1 y2 r plus).length = 360 ∧
    (X_ext_source y1 y2 r plus).getD 0 (0, 0) =
      (X_ext_source y1 y2 r plus).getD 359 (0, 0) := by
  refine ⟨by simp only [X_ext_source, List.length_map, phi, List.length_range], ?_⟩
  rw [X_ext_source_getD y1 y2 r plus 0 (by norm_num),
    X_ext_source_getD y1 y2 r plus 359 (by norm_num)]
  have h359 : ((359 : ℕ) : ℝ) * (2 * Real.pi) / 359 = 2 * Real.pi := by
    push_cast
    field_simp
  have h0 : ((0 : ℕ) : ℝ) * (2 * Real.pi) / 359 = 0 := by norm_num
  rw [h359, h0, Real.cos_zero, Real.sin_zero, Real.cos_two_pi, Real.sin_two_pi]

end Microlensing
